import Mathlib

/-!
Verification of the MatrixBackpropagation neural-network engine.

Shallow embedding notes: scalars (Go float64) are modelled by an arbitrary
field, instantiated at Rat or Real in the theorems; gonum Dense matrices
become lists of rows; in-place gonum operations (Scale, Add, Apply) become
explicit state passing, so a mutating method returns the new value of every
object it writes to; Go panics (failed type assertions, out-of-range slice
or matrix indexing) become Option.none; math.Exp is passed as an explicit
function parameter so that definitions stay executable, and is instantiated
with Real.exp in the theorems about the numeric contract.
-/

namespace Backprop

/-- A dense matrix (gonum mat.Dense): a list of rows. -/
abbrev Mat (α : Type) := List (List α)

variable {α : Type} [CommRing α]

/-- gonum Dense.Scale: elementwise multiplication by a scalar. -/
def matScale (s : α) (m : Mat α) : Mat α :=
  m.map (fun row => row.map (fun v => s * v))

/-- gonum Dense.Add on one row; fails (gonum panic) when lengths differ. -/
def rowAdd : List α → List α → Option (List α)
  | [], [] => some []
  | a :: as, b :: bs => do pure ((a + b) :: (← rowAdd as bs))
  | _, _ => none

/-- gonum Dense.Add; fails (gonum panic) when shapes differ. -/
def matAdd : Mat α → Mat α → Option (Mat α)
  | [], [] => some []
  | r :: rs, t :: ts => do pure ((← rowAdd r t) :: (← matAdd rs ts))
  | _, _ => none

/-- Entry (i, j) of a matrix, defaulting to 0 out of range (gonum At
panics there; theorems carry in-range hypotheses). -/
def matAt (m : Mat α) (i j : Nat) : α := (m.getD i []).getD j (0 : α)

/-- mat.NewDense(len v, 1, v): a column matrix whose backing slice is v. -/
def colMat (v : List α) : Mat α := v.map (fun x => [x])

/-- The Layer variants of the layers package. The parameter matrices used
by the shift algebra (LinearLayer weights and biases, Conv2DLayer kernels,
the four LinearLayer gates of LSTMLayer) and the recorded input width of
the activation layers are kept; parameter fields of kinds whose source
files are not in the corpus and that no claim needs are omitted. -/
inductive Layer (α : Type) where
  | linear (weights biases : Mat α)
  | relu (n_inputs : Int)
  | sigmoid (n_inputs : Int)
  | tanh (n_inputs : Int)
  | softmax (n_inputs : Int)
  | conv2d (kernels : List (Mat α))
  | maxpool2d
  | flatten
  | lstm (forgetGate inputGate candidateGate outputGate : Mat α × Mat α)
  deriving DecidableEq

/-- The ShiftType variants of the layers package: NilShift, WeightShift,
KernelShift, LSTMShift. -/
inductive ShiftType (α : Type) where
  | nil
  | weight (weightShift biasShift : Mat α)
  | kernel (shifts : List (Mat α))
  | lstm (forgetShift inputShift candidateShift outputShift : ShiftType α)
  deriving DecidableEq

/-- KernelShift.Combine body: for i over the receiver shifts, add the
argument shift at i into the receiver; indexing past the end of the
argument list is a Go panic (none); extra argument entries are ignored. -/
def kernelCombineAux : List (Mat α) → List (Mat α) → Option (List (Mat α))
  | [], _ => some []
  | k :: ks, k2 :: k2s => do pure ((← matAdd k k2) :: (← kernelCombineAux ks k2s))
  | _ :: _, [] => none

/-- ShiftType.Combine: NilShift.Combine returns the other shift unchanged;
WeightShift and LSTMShift type-assert the argument to their own dynamic
type before doing anything (a mismatch is a Go panic, none), add it
elementwise into the receiver in place, and return the receiver.
KernelShift runs its type assertion only inside the loop over the receiver
shifts, so a KernelShift with an empty shifts list returns itself
untouched whatever the argument is, while a non-empty one panics on a
mismatched argument at the first iteration. -/
def ShiftType.Combine : ShiftType α → ShiftType α → Option (ShiftType α)
  | .nil, other => some other
  | .weight w b, .weight w2 b2 => do pure (.weight (← matAdd w w2) (← matAdd b b2))
  | .weight _ _, _ => none
  | .kernel [], _ => some (.kernel [])
  | .kernel ks, .kernel k2s => do pure (.kernel (← kernelCombineAux ks k2s))
  | .kernel _, _ => none
  | .lstm f i c o, .lstm f2 i2 c2 o2 =>
      do pure (.lstm (← f.Combine f2) (← i.Combine i2) (← c.Combine c2) (← o.Combine o2))
  | .lstm _ _ _ _, _ => none

/-- View a layer as a LinearLayer (the Go type assertion layer.(*LinearLayer)). -/
def asLinear : Layer α → Option (Mat α × Mat α)
  | .linear w b => some (w, b)
  | _ => none

/-- KernelShift.Apply body: for i over the shifts, scale shifts[i] in place
and add it into kernels[i]; indexing past the end of the kernels is a Go
panic (none); extra kernels are left unchanged. Returns (mutated shifts,
mutated kernels). -/
def kernelApplyAux (scale : α) : List (Mat α) → List (Mat α) → Option (List (Mat α) × List (Mat α))
  | [], kernels => some ([], kernels)
  | s :: ss, k :: ks => do
      let s' := matScale scale s
      let k' ← matAdd k s'
      let (ss', ks') ← kernelApplyAux scale ss ks
      pure (s' :: ss', k' :: ks')
  | _ :: _, [] => none

/-- ShiftType.Apply: scales the stored delta matrices of the shift in place
by the scale factor, then adds them into the parameters of the target
layer; the target must have the matching dynamic type (else Go panic,
none). The KernelShift layer assertion sits inside the loop over the
stored shifts, so an empty KernelShift is a no-op on any layer. Returns
(mutated shift, mutated layer), making the in-place writes of both
objects explicit. -/
def ShiftType.Apply : ShiftType α → Layer α → α → Option (ShiftType α × Layer α)
  | .nil, layer, _ => some (.nil, layer)
  | .weight wS bS, .linear w b, scale =>
      let wS' := matScale scale wS
      let bS' := matScale scale bS
      do
        let w' ← matAdd w wS'
        let b' ← matAdd b bS'
        pure (.weight wS' bS', .linear w' b')
  | .weight _ _, _, _ => none
  | .kernel [], layer, _ => some (.kernel [], layer)
  | .kernel ks, .conv2d kernels, scale => do
      let (ks', kernels') ← kernelApplyAux scale ks kernels
      pure (.kernel ks', .conv2d kernels')
  | .kernel _, _, _ => none
  | .lstm f i c o, .lstm fg ig cg og, scale => do
      let (f', fg') ← f.Apply (.linear fg.1 fg.2) scale
      let (i', ig') ← i.Apply (.linear ig.1 ig.2) scale
      let (c', cg') ← c.Apply (.linear cg.1 cg.2) scale
      let (o', og') ← o.Apply (.linear og.1 og.2) scale
      let fgp ← asLinear fg'
      let igp ← asLinear ig'
      let cgp ← asLinear cg'
      let ogp ← asLinear og'
      pure (.lstm f' i' c' o', .lstm fgp igp cgp ogp)
  | .lstm _ _ _ _, _, _ => none

/-- IndexToLayer from the layers package: indices 0 to 7 give a fresh
zero-valued layer of the matching kind, anything else gives nil (none). -/
def IndexToLayer (index : Int) : Option (Layer α) :=
  if index = 0 then some (.linear [] [])
  else if index = 1 then some (.relu 0)
  else if index = 2 then some (.sigmoid 0)
  else if index = 3 then some (.tanh 0)
  else if index = 4 then some (.softmax 0)
  else if index = 5 then some (.conv2d [])
  else if index = 6 then some .maxpool2d
  else if index = 7 then some .flatten
  else none

/-- LayerToIndex from the layers package: a type switch over the eight
indexed kinds; any other dynamic type (notably LSTMLayer) falls through to
the default branch and gets -1. -/
def LayerToIndex : Layer α → Int
  | .linear _ _ => 0
  | .relu _ => 1
  | .sigmoid _ => 2
  | .tanh _ => 3
  | .softmax _ => 4
  | .conv2d _ => 5
  | .maxpool2d => 6
  | .flatten => 7
  | .lstm _ _ _ _ => -1

/-! ### SigmoidLayer (sigmoidlayer.go) -/

/-- The sigmoid helper of sigmoidlayer.go; math.Exp is a parameter. -/
def sigmoid [Field α] (exp : α → α) (x : α) : α := 1 / (1 + exp (-x))

/-- SigmoidLayer.Pass value-wise: Dense.Apply of sigmoid over every entry
of the input matrix. The in-place nature of that Apply call is modelled
separately by SigmoidLayer.PassH below. -/
def SigmoidLayer.Pass [Field α] (exp : α → α) (input : Mat α) : Mat α :=
  input.map (fun row => row.map (fun v => sigmoid exp v))

/-- utils.GetSlice: the row-major backing slice of a Dense matrix. -/
def GetSlice (m : Mat α) : List α := m.flatten

/-- Row-wise part of Dense.Apply with entry indices. -/
def rowApplyIdx (f : Nat → α → α) : List α → List α :=
  fun row => row.mapIdx (fun j v => f j v)

/-- Dense.Apply with entry indices, value-wise. -/
def matApplyIdx (f : Nat → Nat → α → α) (m : Mat α) : Mat α :=
  m.mapIdx (fun i row => rowApplyIdx (f i) row)

/-- SigmoidLayer.Back: reads the cached forward outputs through
utils.GetSlice, multiplies every upstream gradient entry (i, j) by
y * (1 - y) where y is outputSlice[i*c+j] and c is the column count of the
gradient matrix, and returns a NilShift together with the (in place)
updated gradient matrix. -/
def SigmoidLayer.Back (outputs forwardGradients : Mat α) : ShiftType α × Mat α :=
  let outputSlice := GetSlice outputs
  let c := (forwardGradients.getD 0 []).length
  (.nil, matApplyIdx
    (fun i j v =>
      let val := outputSlice.getD (i * c + j) (0 : α)
      v * val * (1 - val))
    forwardGradients)

/-! ### Perceptron (perceptron.go) -/

/-- The Perceptron struct: layer stack plus hyperparameters. -/
structure Perceptron (α : Type) where
  Layers : List (Layer α)
  BatchSize : Int
  LearningRate : α
  numInputs : Int
  deriving DecidableEq

/-- The layer-wiring loop of Perceptron.Initialize: each layer is
initialized with the output width of the previous one. The per-kind
Initialize and NumOutputs methods are parameters (linit, nout) because
most layer sources are outside the corpus. -/
def initializeLayersChain (linit : Layer α → Int → Layer α) (nout : Layer α → Int) :
    Int → List (Layer α) → List (Layer α)
  | _, [] => []
  | lastOutput, l :: ls =>
      let l' := linit l lastOutput
      l' :: initializeLayersChain linit nout (nout l') ls

/-- Perceptron.Initialize: records numInputs, wires the layers, then sets
BatchSize to 8 and LearningRate to 0.05 unconditionally. -/
def Perceptron.Initialize [Field α] (_net : Perceptron α) (linit : Layer α → Int → Layer α)
    (nout : Layer α → Int) (numInputs : Int) (ls : List (Layer α)) : Perceptron α :=
  { numInputs := numInputs
    Layers := initializeLayersChain linit nout numInputs ls
    BatchSize := 8
    LearningRate := 1 / 20 }

/-- The forward loop shared by Evaluate and learn: fold Pass over the
layers (the per-kind Pass dispatch is the parameter passFn). -/
def forwardPass (passFn : Layer α → Mat α → Mat α) : List (Layer α) → Mat α → Mat α
  | [], m => m
  | l :: ls, m => forwardPass passFn ls (passFn l m)

/-- Perceptron.Evaluate, value-wise: wrap the input slice as a column
matrix, pass it through all layers, and return the backing slice of the
result. -/
def Perceptron.Evaluate (passFn : Layer α → Mat α → Mat α) (net : Perceptron α)
    (input : List α) : List α :=
  GetSlice (forwardPass passFn net.Layers (colMat input))

/-- The loss-gradient construction in Perceptron.learn (lines 80 to 86):
gradient[i] = target[i] - output.At(i, 0), wrapped as a column matrix.
This value is the gradientMat handed to the Back call of the last layer
on the first iteration of the backward loop (line 92). -/
def lossGradient (target : List α) (output : Mat α) : Mat α :=
  colMat ((List.range target.length).map (fun i => target.getD i (0 : α) - matAt output i 0))

/-- The gradient injected into the Back call of the last layer during
Perceptron.learn: the forward loop leaves the final activation in
inputMat, and lossGradient is built from it. -/
def Perceptron.learnInjectedGradient (passFn : Layer α → Mat α → Mat α)
    (net : Perceptron α) (input target : List α) : Mat α :=
  lossGradient target (forwardPass passFn net.Layers (colMat input))

/-! ### The batch update inside Perceptron.Train (lines 194 to 222) -/

/-- One arrival in the shift channel: for i over the sample shifts,
shifts[i] = shifts[i].Combine(layerShift); a sample list longer than the
accumulator would index out of range (none); leftover accumulator entries
stay as they are. -/
def combineShiftLists : List (ShiftType α) → List (ShiftType α) → Option (List (ShiftType α))
  | acc, [] => some acc
  | a :: as, d :: ds => do pure ((← a.Combine d) :: (← combineShiftLists as ds))
  | [], _ :: _ => none

/-- Folding every per-sample shift list of the batch into the accumulator. -/
def foldBatch (acc : List (ShiftType α)) : List (List (ShiftType α)) → Option (List (ShiftType α))
  | [] => some acc
  | d :: ds => do foldBatch (← combineShiftLists acc d) ds

/-- The apply loop: for i over the shifts, shifts[i].Apply(Layers[i],
LearningRate); more shifts than layers would index out of range (none). -/
def applyShiftsToLayers (lr : α) : List (ShiftType α) → List (Layer α) → Option (List (Layer α))
  | [], ls => some ls
  | s :: ss, l :: ls => do
      let (_, l') ← s.Apply l lr
      pure (l' :: (← applyShiftsToLayers lr ss ls))
  | _ :: _, [] => none

/-- Perceptron.getEmptyShift: a NilShift per layer. -/
def Perceptron.getEmptyShift (net : Perceptron α) : List (ShiftType α) :=
  net.Layers.map (fun _ => ShiftType.nil)

/-- One batch of Perceptron.Train after the per-sample gradients arrive:
start from getEmptyShift, Combine in each sample shift list, then Apply
the accumulated shifts to the layers scaled by LearningRate. Returns the
updated layer stack. -/
def Perceptron.trainBatchUpdate (net : Perceptron α)
    (sampleShifts : List (List (ShiftType α))) : Option (List (Layer α)) := do
  let acc ← foldBatch net.getEmptyShift sampleShifts
  applyShiftsToLayers net.LearningRate acc net.Layers

/-! ### Heap model of Evaluate over an all-Sigmoid stack

mat.NewDense(r, c, data) adopts the given slice as backing storage without
copying, and SigmoidLayer.Pass writes its result into its input matrix
(Dense.Apply with the receiver equal to the argument) and returns that
same matrix. So across Evaluate on a stack of Sigmoid layers a single
buffer, the callers input slice, is rewritten in place. The heap is the
list of live buffers (here exactly one) and a matrix value is an index
into it. -/

/-- SigmoidLayer.Pass as a heap operation: overwrite the pointed-to buffer
with sigmoid of its entries, return the same pointer. -/
def SigmoidLayer.PassH [Field α] (exp : α → α) (s : List (List α) × Nat) : List (List α) × Nat :=
  (s.1.set s.2 ((s.1.getD s.2 []).map (sigmoid exp)), s.2)

/-- Perceptron.Evaluate on a stack of numLayers Sigmoid layers, heap
model. Cell 0 of the heap is the callers input slice (adopted by
mat.NewDense). Returns (the slice returned to the caller, the content of
the callers input slice after the call). -/
def Perceptron.EvaluateSigH [Field α] (exp : α → α) (numLayers : Nat) (input : List α) :
    List α × List α :=
  let sF := (SigmoidLayer.PassH exp)^[numLayers] ([input], 0)
  (sF.1.getD sF.2 [], sF.1.getD 0 [])

/-! ### The sample-selection walk of Perceptron.Train (lines 198 to 209) -/

/-- The mutable state of the Train loop that the dataset walk touches. -/
structure TrainState (D : Type) where
  dataset : List D
  datapointIndex : Nat
  epochs : Nat
  deriving DecidableEq

/-- One iteration of the per-batch goroutine-dispatch loop, dataset side:
datapointIndex++; on reaching the end of the dataset, reset the index,
rand.Shuffle the dataset slice in place, and count an epoch. The random
permutations are the oracle shuffle, indexed by how many reshuffles
happened so far. -/
def trainStep (shuffle : Nat → List D → List D) (s : TrainState D) : TrainState D :=
  let i := s.datapointIndex + 1
  if s.dataset.length ≤ i then
    { dataset := shuffle s.epochs s.dataset, datapointIndex := 0, epochs := s.epochs + 1 }
  else
    { s with datapointIndex := i }

/-- The first k oracle reshuffles applied in order. -/
def applyShuffles (shuffle : Nat → List D → List D) : Nat → List D → List D
  | 0, ds => ds
  | k + 1, ds => shuffle k (applyShuffles shuffle k ds)

/-- The effect of Perceptron.Train on the two dataset slices it receives:
numBatches batches of batchSize samples each walk the training dataset
(reshuffling in place at each epoch boundary), while the testing dataset
is only ever read (getTotalLoss) and never reordered. Returns (training
dataset after, testing dataset after). -/
def Perceptron.TrainDatasets (shuffle : Nat → List D → List D)
    (dataset testingData : List D) (batchSize numBatches : Nat) : List D × List D :=
  (((trainStep shuffle)^[batchSize * numBatches] ⟨dataset, 0, 0⟩).dataset, testingData)

/-! ### Persistence codec (perceptron.go ToBytes and FromBytes)

The save package (ConstantsToBytes, ConstantsFromBytes) is not in the
corpus. Modelled from the spec: the blob layout is
int32 numInputs, then per layer int32 layerKindIndex, int32 byteLength,
byteLength payload bytes; each int32 is four little-endian base-256
bytes. Per-layer payload codecs other than the SigmoidLayer one are also
outside the corpus and enter as function parameters constrained by the
round-trip contract of the spec. -/

/-- One int32 as four little-endian bytes (two-complement). -/
def int32ToBytes (n : Int) : List Nat :=
  [(n.emod 4294967296).toNat % 256, (n.emod 4294967296).toNat / 256 % 256,
    (n.emod 4294967296).toNat / 65536 % 256, (n.emod 4294967296).toNat / 16777216 % 256]

/-- Four little-endian bytes back to a signed int32. -/
def bytesToInt32 (b0 b1 b2 b3 : Nat) : Int :=
  if b0 + 256 * b1 + 65536 * b2 + 16777216 * b3 < 2147483648 then
    ((b0 + 256 * b1 + 65536 * b2 + 16777216 * b3 : Nat) : Int)
  else ((b0 + 256 * b1 + 65536 * b2 + 16777216 * b3 : Nat) : Int) - 4294967296

/-- save.ConstantsToBytes. Modelled from the spec: each int becomes an
int32 in the blob. -/
def ConstantsToBytes (xs : List Int) : List Nat :=
  (xs.map int32ToBytes).flatten

/-- save.ConstantsFromBytes. Modelled from the spec: read the byte slice
back as a list of int32 values. -/
def ConstantsFromBytes : List Nat → List Int
  | b0 :: b1 :: b2 :: b3 :: rest => bytesToInt32 b0 b1 b2 b3 :: ConstantsFromBytes rest
  | _ => []

/-- The per-layer block written by Perceptron.ToBytes: kind index and
payload length as int32, then the payload (ltb is the per-kind ToBytes
dispatch). -/
def layerHeaderAndPayload (ltb : Layer α → List Nat) (layer : Layer α) : List Nat :=
  let layerBytes := ltb layer
  ConstantsToBytes [LayerToIndex layer, (layerBytes.length : Int)] ++ layerBytes

/-- Perceptron.ToBytes: numInputs, then every layer block. -/
def Perceptron.ToBytes (ltb : Layer α → List Nat) (net : Perceptron α) : List Nat :=
  ConstantsToBytes [net.numInputs] ++ (net.Layers.map (layerHeaderAndPayload ltb)).flatten

/-- The parse loop of Perceptron.FromBytes. fuel bounds the number of
iterations (each Go iteration consumes at least 8 bytes, so fuel equal to
the byte count is always enough). Per iteration: read the 8-byte header,
build the fresh layer via IndexToLayer (a nil result makes the following
method call panic, none), slice out the payload, run the per-kind
FromBytes (lfb) and then Initialize (linit) with the chained width, and
continue after the payload with the width given by NumOutputs (nout). -/
def fromBytesLoop (lfb : Layer α → List Nat → Layer α) (linit : Layer α → Int → Layer α)
    (nout : Layer α → Int) : Nat → Int → List Nat → Option (List (Layer α))
  | _, _, [] => some []
  | fuel + 1, lastOutput, b0 :: b1 :: b2 :: b3 :: b4 :: b5 :: b6 :: b7 :: rest =>
      let layerData := ConstantsFromBytes [b0, b1, b2, b3, b4, b5, b6, b7]
      let kindIdx := layerData.getD 0 0
      let dataLength := layerData.getD 1 0
      match IndexToLayer (α := α) kindIdx with
      | none => none
      | some freshLayer =>
          if 0 ≤ dataLength ∧ dataLength.toNat ≤ rest.length then
            let layer1 := lfb freshLayer (rest.take dataLength.toNat)
            let layer2 := linit layer1 lastOutput
            do
              let more ← fromBytesLoop lfb linit nout fuel (nout layer2)
                (rest.drop dataLength.toNat)
              pure (layer2 :: more)
          else none
  | _, _, _ => none

/-- Perceptron.FromBytes: numInputs from the first four bytes, then the
parse loop; the receiver keeps its other fields. A blob too short for its
own headers corresponds to a Go slice panic (none). -/
def Perceptron.FromBytes (lfb : Layer α → List Nat → Layer α)
    (linit : Layer α → Int → Layer α) (nout : Layer α → Int)
    (net : Perceptron α) (bytes : List Nat) : Option (Perceptron α) :=
  match bytes with
  | b0 :: b1 :: b2 :: b3 :: rest =>
      let numInputs := (ConstantsFromBytes [b0, b1, b2, b3]).getD 0 0
      (fromBytesLoop lfb linit nout rest.length numInputs rest).map
        (fun ls => { net with numInputs := numInputs, Layers := ls })
  | _ => none

/-- The per-layer codec contract for one layer stack, as a decidable
check. Modelled from the spec: the per-layer payload codecs other than the
SigmoidLayer one are outside the corpus, so they enter as the function
parameters ltb (ToBytes), lfb (FromBytes), linit (Initialize) and nout
(NumOutputs), constrained here exactly as the spec requires: walking the
stack with the chained widths, every layer is one of the eight indexed
kinds (IndexToLayer of its kind index yields a fresh layer), its payload
length fits an int32, and FromBytes-then-Initialize on the fresh layer
reproduces the layer. -/
def layerRT [DecidableEq α] (ltb : Layer α → List Nat) (lfb : Layer α → List Nat → Layer α)
    (linit : Layer α → Int → Layer α) (nout : Layer α → Int) :
    Int → List (Layer α) → Bool
  | _, [] => true
  | w, l :: ls =>
      (decide (((ltb l).length : Int) < 2147483648) &&
        match IndexToLayer (α := α) (LayerToIndex l) with
        | none => false
        | some fresh => linit (lfb fresh (ltb l)) w == l) &&
      layerRT ltb lfb linit nout (nout l) ls

/-! ## Helper lemmas -/

theorem bytesToInt32_int32ToBytes (n : Int) (h1 : -2147483648 ≤ n) (h2 : n < 2147483648) :
    bytesToInt32 ((n.emod 4294967296).toNat % 256) ((n.emod 4294967296).toNat / 256 % 256)
      ((n.emod 4294967296).toNat / 65536 % 256)
      ((n.emod 4294967296).toNat / 16777216 % 256) = n := by
  have hnn : (0 : Int) ≤ n.emod 4294967296 := Int.emod_nonneg n (by norm_num)
  have hlt : n.emod 4294967296 < 4294967296 := Int.emod_lt_of_pos n (by norm_num)
  have hcast : ((n.emod 4294967296).toNat : Int) = n.emod 4294967296 :=
    Int.toNat_of_nonneg hnn
  set u : Nat := (n.emod 4294967296).toNat with hu
  have hub : u < 4294967296 := by omega
  have hrecon : u % 256 + 256 * (u / 256 % 256) + 65536 * (u / 65536 % 256) +
      16777216 * (u / 16777216 % 256) = u := by omega
  have hcase : n.emod 4294967296 = n ∨ n.emod 4294967296 = n + 4294967296 := by
    rcases le_or_lt 0 n with hn | hn
    · left; exact Int.emod_eq_of_lt hn (by omega)
    · right
      have hswap : (n + 4294967296) % (4294967296 : Int) = n % 4294967296 := by
        have := Int.add_mul_emod_self_left (a := n) (b := 4294967296) (c := 1)
        simpa using this
      have hval : (n + 4294967296) % (4294967296 : Int) = n + 4294967296 :=
        Int.emod_eq_of_lt (by omega) (by omega)
      show n % 4294967296 = n + 4294967296
      rw [← hswap, hval]
  unfold bytesToInt32
  rw [hrecon]
  split <;> omega

theorem LayerToIndex_range (l : Layer α) : -1 ≤ LayerToIndex l ∧ LayerToIndex l ≤ 7 := by
  cases l <;> simp [LayerToIndex]

theorem fromBytesLoop_roundtrip [DecidableEq α] (ltb : Layer α → List Nat)
    (lfb : Layer α → List Nat → Layer α) (linit : Layer α → Int → Layer α)
    (nout : Layer α → Int) :
    ∀ (ls : List (Layer α)) (w : Int) (fuel : Nat),
      layerRT ltb lfb linit nout w ls = true →
      ((ls.map (layerHeaderAndPayload ltb)).flatten).length ≤ fuel →
      fromBytesLoop lfb linit nout fuel w ((ls.map (layerHeaderAndPayload ltb)).flatten) =
        some ls := by
  intro ls
  induction ls with
  | nil =>
      intro w fuel _ _
      simp [fromBytesLoop]
  | cons l ls ih =>
      intro w fuel hrt hfuel
      simp only [layerRT, Bool.and_eq_true, decide_eq_true_eq] at hrt
      obtain ⟨⟨hlen31, hmatch⟩, hrest⟩ := hrt
      rcases hfresh : IndexToLayer (α := α) (LayerToIndex l) with _ | fresh
      · rw [hfresh] at hmatch; simp at hmatch
      rw [hfresh] at hmatch
      have hlayer : linit (lfb fresh (ltb l)) w = l := by simpa using hmatch
      obtain ⟨hk1, hk2⟩ := LayerToIndex_range l
      have hkdec := bytesToInt32_int32ToBytes (LayerToIndex l) (by omega) (by omega)
      have hldec := bytesToInt32_int32ToBytes (((ltb l).length : Nat) : Int)
        (by omega) hlen31
      simp only [List.map_cons, List.flatten_cons, layerHeaderAndPayload, ConstantsToBytes,
        List.map_nil, List.flatten_nil, List.append_nil, int32ToBytes, List.cons_append,
        List.nil_append, List.append_assoc] at hfuel ⊢
      obtain ⟨fu, rfl⟩ : ∃ fu, fuel = fu + 1 := by
        cases fuel with
        | zero => simp at hfuel
        | succ f => exact ⟨f, rfl⟩
      simp only [fromBytesLoop, ConstantsFromBytes, hkdec, hldec, hfresh,
        List.getD_cons_zero, List.getD_cons_succ, Int.toNat_natCast, Nat.cast_nonneg,
        List.length_append, le_add_iff_nonneg_right, Nat.zero_le, and_self, if_true,
        List.take_left, List.drop_left, hlayer]
      rw [ih (nout l) fu hrest (by simp at hfuel ⊢; omega)]
      rfl

theorem matScale_matScale (s t : α) (m : Mat α) :
    matScale s (matScale t m) = matScale (s * t) m := by
  simp [matScale, List.map_map, Function.comp, mul_assoc]

theorem kernelApplyAux_fst (scale : α) :
    ∀ (ks Ks res1 res2 : List (Mat α)),
      kernelApplyAux scale ks Ks = some (res1, res2) → res1 = ks.map (matScale scale) := by
  intro ks
  induction ks with
  | nil =>
      intro Ks res1 res2 h
      simp only [kernelApplyAux, Option.some.injEq, Prod.mk.injEq] at h
      simp [← h.1]
  | cons s ss ih =>
      intro Ks res1 res2 h
      cases Ks with
      | nil => simp [kernelApplyAux] at h
      | cons k kt =>
          simp only [kernelApplyAux, Option.bind_eq_bind, Option.bind_eq_some, Option.pure_def,
            Option.some.injEq, Prod.mk.injEq] at h
          obtain ⟨k1, hk1, ⟨q1, q2⟩, hq, hp1, hp2⟩ := h
          have hq1 := ih kt q1 q2 hq
          simp [← hp1, hq1]

theorem matAt_colMat (v : List α) (i : Nat) : matAt (colMat v) i 0 = v.getD i 0 := by
  induction v generalizing i with
  | nil => simp [matAt, colMat]
  | cons x xs ih =>
      cases i with
      | zero => simp [matAt, colMat]
      | succ j => simpa [matAt, colMat, List.getD_cons_succ] using ih j

theorem getD_range_map (f : Nat → α) (n i : Nat) (h : i < n) :
    ((List.range n).map f).getD i 0 = f i := by
  rw [List.getD_eq_getElem _ _ (by simpa using h)]
  simp

theorem flatten_getD_col (m : Mat α) (hcol : ∀ row ∈ m, row.length = 1) (i : Nat) :
    m.flatten.getD i 0 = matAt m i 0 := by
  induction m generalizing i with
  | nil => simp [matAt]
  | cons r rs ih =>
      have hr : r.length = 1 := hcol r (List.mem_cons_self _ _)
      obtain ⟨x, rfl⟩ : ∃ x, r = [x] := by
        match r, hr with
        | [x], _ => exact ⟨x, rfl⟩
      cases i with
      | zero => simp [matAt]
      | succ j =>
          have := ih (fun row hrow => hcol row (List.mem_cons_of_mem _ hrow)) j
          simpa [matAt, List.getD_cons_succ] using this

theorem matAt_mapRows (f : α → α) : ∀ (m : Mat α) (i j : Nat),
    i < m.length → j < (m.getD i []).length →
    matAt (m.map (fun row => row.map f)) i j = f (matAt m i j) := by
  intro m
  induction m with
  | nil => intro i j hi _; simp at hi
  | cons r rs ih =>
      intro i j hi hj
      cases i with
      | zero =>
          simp only [List.map_cons, matAt, List.getD_cons_zero] at hj ⊢
          rw [List.getD_eq_getElem _ _ (by simpa using hj), List.getElem_map,
            List.getD_eq_getElem _ _ hj]
      | succ k =>
          simp only [List.map_cons, matAt, List.getD_cons_succ] at hj ⊢
          have := ih k j (by simpa using hi) hj
          simpa [matAt] using this

theorem rowApplyIdx_getD (f : Nat → α → α) (r : List α) (j : Nat) (hj : j < r.length) :
    (rowApplyIdx f r).getD j 0 = f j (r.getD j 0) := by
  have hj2 : j < (rowApplyIdx f r).length := by
    simpa [rowApplyIdx, List.length_mapIdx] using hj
  rw [List.getD_eq_getElem _ _ hj2, List.getD_eq_getElem _ _ hj]
  simpa [rowApplyIdx, List.get_eq_getElem] using List.get_mapIdx r f j hj

theorem matAt_matApplyIdx (f : Nat → Nat → α → α) (m : Mat α) (i j : Nat)
    (hi : i < m.length) (hj : j < (m.getD i []).length) :
    matAt (matApplyIdx f m) i j = f i j (matAt m i j) := by
  unfold matAt
  rw [List.getD_eq_getElem _ _ hi] at hj
  have hi2 : i < (matApplyIdx f m).length := by
    simpa [matApplyIdx, List.length_mapIdx] using hi
  have hrow : (matApplyIdx f m).getD i [] = rowApplyIdx (f i) m[i] := by
    rw [List.getD_eq_getElem _ _ hi2]
    simpa [matApplyIdx, List.get_eq_getElem] using
      List.get_mapIdx m (fun k row => rowApplyIdx (f k) row) i hi
  rw [hrow, List.getD_eq_getElem _ _ hi, rowApplyIdx_getD _ _ _ hj]

theorem flatten_getD_rect (c : Nat) : ∀ (m : Mat α) (i j : Nat),
    (∀ row ∈ m, row.length = c) → i < m.length → j < c →
    m.flatten.getD (i * c + j) 0 = matAt m i j := by
  intro m
  induction m with
  | nil => intro i j _ hi _; simp at hi
  | cons r rs ih =>
      intro i j hrect hi hj
      have hr : r.length = c := hrect r (List.mem_cons_self _ _)
      cases i with
      | zero =>
          rw [List.flatten_cons, Nat.zero_mul, Nat.zero_add,
            List.getD_append _ _ _ _ (by omega)]
          simp [matAt]
      | succ k =>
          have hstep : (k + 1) * c + j = r.length + (k * c + j) := by rw [hr]; ring
          rw [List.flatten_cons, hstep, List.getD_append_right _ _ _ _ (Nat.le_add_right _ _),
            Nat.add_sub_cancel_left]
          have := ih k j (fun row hrow => hrect row (List.mem_cons_of_mem _ hrow))
            (by simpa using hi) hj
          simpa [matAt, List.getD_cons_succ] using this

theorem applyShuffles_length {D : Type} (shuffle : Nat → List D → List D)
    (hpres : ∀ k l, (shuffle k l).length = l.length) :
    ∀ (k : Nat) (ds : List D), (applyShuffles shuffle k ds).length = ds.length := by
  intro k ds
  induction k with
  | zero => rfl
  | succ n ih => simp [applyShuffles, hpres, ih]

theorem trainStep_iterate {D : Type} (shuffle : Nat → List D → List D)
    (hpres : ∀ k l, (shuffle k l).length = l.length) (ds : List D) (hL : 0 < ds.length) :
    ∀ m : Nat, (trainStep shuffle)^[m] ⟨ds, 0, 0⟩ =
      ⟨applyShuffles shuffle (m / ds.length) ds, m % ds.length, m / ds.length⟩ := by
  intro m
  induction m with
  | zero => simp [applyShuffles]
  | succ k ih =>
      rw [Function.iterate_succ_apply', ih]
      have hq := Nat.div_add_mod k ds.length
      have hr : k % ds.length < ds.length := Nat.mod_lt _ hL
      have hlen : (applyShuffles shuffle (k / ds.length) ds).length = ds.length :=
        applyShuffles_length shuffle hpres _ _
      simp only [trainStep, hlen]
      by_cases hwrap : ds.length ≤ k % ds.length + 1
      · rw [if_pos hwrap]
        have hk1 : k + 1 = ds.length * (k / ds.length) + ds.length := by omega
        have hfac : ds.length * (k / ds.length) + ds.length =
            ds.length * (k / ds.length + 1) := by ring
        have hdiv : (k + 1) / ds.length = k / ds.length + 1 := by
          conv_lhs => rw [hk1, hfac]
          rw [Nat.mul_div_cancel_left _ hL]
        have hmod : (k + 1) % ds.length = 0 := by
          conv_lhs => rw [hk1, hfac]
          rw [Nat.mul_mod_right]
        rw [hdiv, hmod]
        rfl
      · rw [if_neg hwrap]
        have hk1 : k + 1 = ds.length * (k / ds.length) + (k % ds.length + 1) := by omega
        have hdiv : (k + 1) / ds.length = k / ds.length := by
          conv_lhs => rw [hk1]
          rw [Nat.mul_add_div hL]
          have hz : (k % ds.length + 1) / ds.length = 0 := Nat.div_eq_of_lt (by omega)
          rw [hz, Nat.add_zero]
        have hmod : (k + 1) % ds.length = k % ds.length + 1 := by
          conv_lhs => rw [hk1]
          rw [Nat.mul_add_mod]
          exact Nat.mod_eq_of_lt (by omega)
        rw [hdiv, hmod]

/-! ## Claim theorems -/

/-- C2 counterexample: a freshly constructed no-op shift is not a
right identity for Combine: combining a WeightShift with a NilShift on the
right type-asserts the NilShift to a WeightShift and panics, rather than
returning the WeightShift. -/
theorem C2_weight_combine_nil_fails :
    ShiftType.Combine (ShiftType.weight (α := ℚ) [[1]] [[2]]) ShiftType.nil ≠
      some (ShiftType.weight [[1]] [[2]]) := by
  decide

/-- C2 (amended): a freshly constructed no-op shift is a left identity for
Combine over every shift variant: Combine(noop, s) = s. It is not a right
identity in general: Combine(s, noop) returns s exactly when the receiver
never reaches its type assertion, that is when s is itself a no-op shift
or a KernelShift with an empty shifts list (the assertion sits inside the
loop over the stored deltas); for a WeightShift, an LSTMShift, or a
KernelShift with at least one stored delta, Combine(s, noop) is a
type-assertion panic instead of s. -/
theorem C2_nil_is_left_identity_only {α : Type} [CommRing α] (s : ShiftType α) :
    ShiftType.Combine ShiftType.nil s = some s ∧
      (ShiftType.Combine s ShiftType.nil = some s ↔
        s = ShiftType.nil ∨ s = ShiftType.kernel []) := by
  refine ⟨rfl, ?_⟩
  cases s with
  | nil => simp [ShiftType.Combine]
  | weight w b => simp [ShiftType.Combine]
  | kernel ks =>
      cases ks with
      | nil => simp [ShiftType.Combine]
      | cons k kt => simp [ShiftType.Combine]
  | lstm f i c o => simp [ShiftType.Combine]

/-- Witness for C2: the amended statement at the concrete WeightShift
[[1]], [[2]] (where right-combining with the no-op panics) and at the
empty KernelShift (where it returns the receiver), over the rationals. -/
theorem C2_nil_is_left_identity_only_witness :
    (ShiftType.Combine ShiftType.nil (ShiftType.weight (α := ℚ) [[1]] [[2]]) =
        some (ShiftType.weight [[1]] [[2]]) ∧
      (ShiftType.Combine (ShiftType.weight (α := ℚ) [[1]] [[2]]) ShiftType.nil =
          some (ShiftType.weight [[1]] [[2]]) ↔
        ShiftType.weight (α := ℚ) [[1]] [[2]] = ShiftType.nil ∨
          ShiftType.weight (α := ℚ) [[1]] [[2]] = ShiftType.kernel [])) ∧
    (ShiftType.Combine ShiftType.nil (ShiftType.kernel (α := ℚ) []) =
        some (ShiftType.kernel []) ∧
      (ShiftType.Combine (ShiftType.kernel (α := ℚ) []) ShiftType.nil =
          some (ShiftType.kernel []) ↔
        ShiftType.kernel (α := ℚ) [] = ShiftType.nil ∨
          ShiftType.kernel (α := ℚ) [] = ShiftType.kernel [])) :=
  ⟨C2_nil_is_left_identity_only (ShiftType.weight [[1]] [[2]]),
    C2_nil_is_left_identity_only (ShiftType.kernel [])⟩

/-- C8: Perceptron.Initialize unconditionally sets BatchSize to 8 and
LearningRate to 0.05 (one twentieth) after wiring the layers, whatever
values the caller had stored in those fields before the call. -/
theorem C8_initialize_overwrites_hyperparameters {α : Type} [Field α]
    (net : Perceptron α) (linit : Layer α → Int → Layer α) (nout : Layer α → Int)
    (numInputs : Int) (ls : List (Layer α)) :
    (net.Initialize linit nout numInputs ls).BatchSize = 8 ∧
      (net.Initialize linit nout numInputs ls).LearningRate = 1 / 20 :=
  ⟨rfl, rfl⟩

/-- C9: Apply mutates the shift object itself, not only the target layer.
For a WeightShift, Apply scales the stored weight and bias deltas in place
by the scale factor and then adds them into the LinearLayer parameters, so
a second Apply of the same (now mutated) shift object adds scale squared
times the original delta; a KernelShift likewise keeps its kernel deltas
scaled in place, so its second Apply carries scale squared times the
original kernel deltas. -/
theorem C9_apply_mutates_shift_in_place {α : Type} [CommRing α] (scale : α)
    (dw db W B : Mat α) (sh₁ sh₂ : ShiftType α) (l₁ l₂ : Layer α)
    (ks Ks : List (Mat α)) (shk₁ shk₂ : ShiftType α) (k₁ k₂ : Layer α)
    (h1 : ShiftType.Apply (.weight dw db) (.linear W B) scale = some (sh₁, l₁))
    (h2 : ShiftType.Apply sh₁ l₁ scale = some (sh₂, l₂))
    (h3 : ShiftType.Apply (.kernel ks) (.conv2d Ks) scale = some (shk₁, k₁))
    (h4 : ShiftType.Apply shk₁ k₁ scale = some (shk₂, k₂)) :
    sh₁ = .weight (matScale scale dw) (matScale scale db) ∧
    sh₂ = .weight (matScale (scale * scale) dw) (matScale (scale * scale) db) ∧
    (∃ W₁ B₁, l₁ = .linear W₁ B₁ ∧
      matAdd W (matScale scale dw) = some W₁ ∧
      matAdd B (matScale scale db) = some B₁ ∧
      ∃ W₂ B₂, l₂ = .linear W₂ B₂ ∧
        matAdd W₁ (matScale (scale * scale) dw) = some W₂ ∧
        matAdd B₁ (matScale (scale * scale) db) = some B₂) ∧
    shk₁ = .kernel (ks.map (matScale scale)) ∧
    shk₂ = .kernel (ks.map (matScale (scale * scale))) := by
  simp only [ShiftType.Apply, Option.bind_eq_bind, Option.bind_eq_some, Option.pure_def,
    Option.some.injEq, Prod.mk.injEq] at h1
  obtain ⟨W₁, hW₁, B₁, hB₁, hsh₁, hl₁⟩ := h1
  subst hsh₁; subst hl₁
  simp only [ShiftType.Apply, Option.bind_eq_bind, Option.bind_eq_some, Option.pure_def,
    Option.some.injEq, Prod.mk.injEq, matScale_matScale] at h2
  obtain ⟨W₂, hW₂, B₂, hB₂, hsh₂, hl₂⟩ := h2
  subst hsh₂; subst hl₂
  rcases ks with _ | ⟨k0, kt⟩
  · simp only [ShiftType.Apply, Option.some.injEq, Prod.mk.injEq] at h3
    obtain ⟨hshk₁, hk₁⟩ := h3
    subst hshk₁; subst hk₁
    simp only [ShiftType.Apply, Option.some.injEq, Prod.mk.injEq] at h4
    obtain ⟨hshk₂, hk₂⟩ := h4
    subst hshk₂; subst hk₂
    exact ⟨rfl, rfl, ⟨W₁, B₁, rfl, hW₁, hB₁, W₂, B₂, rfl, hW₂, hB₂⟩, rfl, rfl⟩
  · simp only [ShiftType.Apply, Option.bind_eq_bind, Option.bind_eq_some, Option.pure_def,
      Option.some.injEq, Prod.mk.injEq] at h3
    obtain ⟨⟨ks₁, Ks₁⟩, hka, hshk₁, hk₁⟩ := h3
    have hks₁ : ks₁ = (k0 :: kt).map (matScale scale) :=
      kernelApplyAux_fst scale (k0 :: kt) Ks ks₁ Ks₁ hka
    subst hshk₁; subst hk₁; subst hks₁
    simp only [List.map_cons, ShiftType.Apply, Option.bind_eq_bind, Option.bind_eq_some,
      Option.pure_def, Option.some.injEq, Prod.mk.injEq] at h4
    obtain ⟨⟨ks₂, Ks₂⟩, hka₂, hshk₂, hk₂⟩ := h4
    have hks₂ : ks₂ = (matScale scale k0 :: kt.map (matScale scale)).map (matScale scale) :=
      kernelApplyAux_fst scale _ Ks₁ ks₂ Ks₂ hka₂
    subst hshk₂; subst hk₂; subst hks₂
    refine ⟨rfl, rfl, ⟨W₁, B₁, rfl, hW₁, hB₁, W₂, B₂, rfl, hW₂, hB₂⟩, by simp, ?_⟩
    simp only [List.map_cons, List.map_map]
    refine congrArg ShiftType.kernel (congrArg₂ List.cons (matScale_matScale scale scale k0) ?_)
    apply List.map_congr_left
    intro m _
    simp [Function.comp, matScale_matScale]

/-- Witness for C9: the concrete run over the integers with delta [[1]],
parameters [[0]] and scale 2: the first Apply adds 2, the mutated shift
holds 2, the second Apply adds 4. -/
theorem C9_apply_mutates_shift_in_place_witness :
    (ShiftType.Apply (.weight [[1]] [[0]]) (Layer.linear (α := ℤ) [[0]] [[0]]) 2 =
        some (.weight [[2]] [[0]], .linear [[2]] [[0]])) ∧
    (ShiftType.Apply (.weight [[2]] [[0]]) (Layer.linear (α := ℤ) [[2]] [[0]]) 2 =
        some (.weight [[4]] [[0]], .linear [[6]] [[0]])) ∧
    (ShiftType.Apply (.kernel [[[1]]]) (Layer.conv2d (α := ℤ) [[[0]]]) 2 =
        some (.kernel [[[2]]], .conv2d [[[2]]])) ∧
    (ShiftType.Apply (.kernel [[[2]]]) (Layer.conv2d (α := ℤ) [[[2]]]) 2 =
        some (.kernel [[[4]]], .conv2d [[[6]]])) ∧
    ((ShiftType.weight (α := ℤ) [[2]] [[0]] = .weight (matScale 2 [[1]]) (matScale 2 [[0]])) ∧
      (ShiftType.weight (α := ℤ) [[4]] [[0]] =
        .weight (matScale (2 * 2) [[1]]) (matScale (2 * 2) [[0]])) ∧
      (∃ W₁ B₁, Layer.linear (α := ℤ) [[2]] [[0]] = .linear W₁ B₁ ∧
        matAdd [[0]] (matScale 2 [[1]]) = some W₁ ∧
        matAdd [[0]] (matScale 2 [[0]]) = some B₁ ∧
        ∃ W₂ B₂, Layer.linear (α := ℤ) [[6]] [[0]] = .linear W₂ B₂ ∧
          matAdd W₁ (matScale (2 * 2) [[1]]) = some W₂ ∧
          matAdd B₁ (matScale (2 * 2) [[0]]) = some B₂) ∧
      (ShiftType.kernel (α := ℤ) [[[2]]] = .kernel ([[[1]]].map (matScale 2))) ∧
      (ShiftType.kernel (α := ℤ) [[[4]]] = .kernel ([[[1]]].map (matScale (2 * 2))))) :=
  ⟨by decide, by decide, by decide, by decide,
    C9_apply_mutates_shift_in_place (α := ℤ) 2 [[1]] [[0]] [[0]] [[0]]
      (.weight [[2]] [[0]]) (.weight [[4]] [[0]]) (.linear [[2]] [[0]]) (.linear [[6]] [[0]])
      [[[1]]] [[[0]]] (.kernel [[[2]]]) (.kernel [[[4]]]) (.conv2d [[[2]]]) (.conv2d [[[6]]])
      (by decide) (by decide) (by decide) (by decide)⟩

/-- C1: evaluation of the batch update of Perceptron.Train at a concrete
failing input. With BatchSize 2, LearningRate 1, a single LinearLayer with
weight [[0]], and two per-sample WeightShifts of [[1]] each, the applied
parameter delta is LearningRate times the SUM of the per-sample gradients
(new weight [[2]]), not LearningRate times their mean (which would give
new weight [[1]]): no division by BatchSize happens anywhere in Train,
although its comment says the averaged shifts are applied. -/
theorem C1_batch_update_applies_sum_not_mean :
    Perceptron.trainBatchUpdate (α := ℤ)
        { Layers := [Layer.linear [[0]] [[0]]], BatchSize := 2, LearningRate := 1,
          numInputs := 1 }
        [[ShiftType.weight [[1]] [[0]]], [ShiftType.weight [[1]] [[0]]]] =
      some [Layer.linear [[2]] [[0]]] ∧
    Layer.linear (α := ℤ) [[2]] [[0]] ≠ Layer.linear [[1]] [[0]] := by
  constructor
  · decide
  · decide

/-- C6: the layer-kind index mapping is a bijection on the defined kinds:
for every k from 0 to 7, IndexToLayer k is a layer with LayerToIndex equal
to k again; and FromBytes on a blob whose header carries the out-of-range
kind index 8 fails (the nil layer IndexToLayer returns makes the decode
panic, modelled none) instead of silently yielding a network with a nil
layer. -/
theorem C6_kind_index_bijection_and_decode_reject (k : Int) (h0 : 0 ≤ k) (h7 : k ≤ 7) :
    (∃ l : Layer ℤ, IndexToLayer k = some l ∧ LayerToIndex l = k) ∧
      Perceptron.FromBytes (α := ℤ) (fun l _ => l) (fun l _ => l) (fun _ => 0)
        { Layers := [], BatchSize := 8, LearningRate := 0, numInputs := 0 }
        (ConstantsToBytes [1] ++ ConstantsToBytes [8, 0]) = none := by
  constructor
  · interval_cases k <;> exact ⟨_, rfl, rfl⟩
  · decide

/-- Witness for C6 at the concrete defined index 5 (Conv2D). -/
theorem C6_kind_index_bijection_and_decode_reject_witness :
    ((0 : Int) ≤ 5 ∧ (5 : Int) ≤ 7) ∧
      (∃ l : Layer ℤ, IndexToLayer 5 = some l ∧ LayerToIndex l = 5) :=
  ⟨⟨by decide, by decide⟩,
    (C6_kind_index_bijection_and_decode_reject 5 (by decide) (by decide)).1⟩

/-- C3 counterexample: Evaluate is not pure with respect to the input
vector of the caller. mat.NewDense adopts that slice as backing storage
and SigmoidLayer.Pass overwrites its input matrix in place, so for a
network of one Sigmoid layer and the input [0], after Evaluate the
callers slice holds [sigmoid 0] = [1/2], not the original [0]. -/
theorem C3_evaluate_mutates_caller_input_vector :
    (Perceptron.EvaluateSigH Real.exp 1 [(0 : ℝ)]).2 ≠ [(0 : ℝ)] := by
  simp only [Perceptron.EvaluateSigH, Function.iterate_one, SigmoidLayer.PassH, sigmoid,
    List.getD_cons_zero, List.map_cons, List.map_nil, List.set]
  intro h
  have h0 : (1 : ℝ) / (1 + Real.exp (-0)) = 0 := by
    have := List.cons.injEq ((1 : ℝ) / (1 + Real.exp (-0))) [] (0 : ℝ) []
    simp_all
  rw [neg_zero, Real.exp_zero] at h0
  norm_num at h0

/-- C3 (amended): over a stack of Sigmoid layers, Evaluate returns the
expected final activation (sigmoid mapped numLayers times over the input),
but it is not a frame-preserving pure pass on the callers data: the input
matrix aliases the callers slice and every Pass rewrites it in place, so
after Evaluate that slice also holds the final activation rather than the
original input. (Sigmoid layers own no trainable parameters, and none are
touched.) -/
theorem C3_evaluate_sig_return_and_buffer_alias {α : Type} [Field α]
    (exp : α → α) (numLayers : Nat) (input : List α) :
    Perceptron.EvaluateSigH exp numLayers input =
      ((fun buf => buf.map (sigmoid exp))^[numLayers] input,
        (fun buf => buf.map (sigmoid exp))^[numLayers] input) := by
  have key : ∀ (n : Nat) (buf : List α), (SigmoidLayer.PassH exp)^[n] ([buf], 0) =
      ([(fun b => b.map (sigmoid exp))^[n] buf], 0) := by
    intro n
    induction n with
    | zero => intro buf; rfl
    | succ k ih =>
        intro buf
        rw [Function.iterate_succ_apply, Function.iterate_succ_apply]
        have hstep : SigmoidLayer.PassH exp ([buf], 0) = ([buf.map (sigmoid exp)], 0) := by
          simp [SigmoidLayer.PassH]
        rw [hstep, ih]
  unfold Perceptron.EvaluateSigH
  rw [key]
  simp

/-- C4: the gradient injected into the Back call of the last layer during
the per-sample backward pass of Perceptron.learn is target minus
prediction per component, where the prediction is exactly what
Perceptron.Evaluate returns on the same input. -/
theorem C4_injected_gradient_is_target_minus_prediction {α : Type} [CommRing α]
    (passFn : Layer α → Mat α → Mat α) (net : Perceptron α) (input target : List α)
    (i : Nat) (hi : i < target.length)
    (hcol : ∀ row ∈ forwardPass passFn net.Layers (colMat input), row.length = 1) :
    matAt (net.learnInjectedGradient passFn input target) i 0 =
      target.getD i 0 - (net.Evaluate passFn input).getD i 0 := by
  unfold Perceptron.learnInjectedGradient lossGradient Perceptron.Evaluate GetSlice
  rw [matAt_colMat, getD_range_map _ _ _ hi, flatten_getD_col _ hcol i]

/-- Witness for C4: a one-layer network with the identity pass over the
integers, input [3] and target [1]: the injected gradient entry is
1 - 3 = -2, which is target minus the Evaluate output. -/
theorem C4_injected_gradient_is_target_minus_prediction_witness :
    ((0 : Nat) < ([(1 : ℤ)] : List ℤ).length) ∧
      (∀ row ∈ forwardPass (fun _ m => m) (Perceptron.mk [Layer.relu 1] 8 0 1).Layers
          (colMat [(3 : ℤ)]), row.length = 1) ∧
      matAt ((Perceptron.mk [Layer.relu (α := ℤ) 1] 8 0 1).learnInjectedGradient
          (fun _ m => m) [3] [1]) 0 0 =
        ([(1 : ℤ)] : List ℤ).getD 0 0 -
          ((Perceptron.mk [Layer.relu (α := ℤ) 1] 8 0 1).Evaluate (fun _ m => m) [3]).getD 0 0 :=
  ⟨by decide, by decide,
    C4_injected_gradient_is_target_minus_prediction (fun _ m => m)
      (Perceptron.mk [Layer.relu 1] 8 0 1) [3] [1] 0 (by decide) (by decide)⟩

/-- C7: SigmoidLayer.Pass computes 1/(1+e^-x) elementwise on its input,
and SigmoidLayer.Back returns a NilShift together with a downstream
gradient equal elementwise to the upstream gradient times y(1-y), with y
the cached forward output at the same position. -/
theorem C7_sigmoid_pass_and_back (input outputs grads : Mat ℝ) (i j : Nat)
    (hpi : i < input.length) (hpj : j < (input.getD i []).length)
    (hgi : i < grads.length) (hgj : j < (grads.getD i []).length)
    (hrect : ∀ row ∈ outputs, row.length = (grads.getD 0 []).length)
    (hoi : i < outputs.length) (hjc : j < (grads.getD 0 []).length) :
    matAt (SigmoidLayer.Pass Real.exp input) i j =
      1 / (1 + Real.exp (-(matAt input i j))) ∧
    (SigmoidLayer.Back outputs grads).1 = ShiftType.nil ∧
    matAt (SigmoidLayer.Back outputs grads).2 i j =
      matAt grads i j * (matAt outputs i j * (1 - matAt outputs i j)) := by
  refine ⟨?_, rfl, ?_⟩
  · unfold SigmoidLayer.Pass
    rw [matAt_mapRows _ _ _ _ hpi hpj]
    rfl
  · show matAt (matApplyIdx
        (fun i j v =>
          let val := (GetSlice outputs).getD (i * (grads.getD 0 []).length + j) (0 : ℝ)
          v * val * (1 - val)) grads) i j = _
    rw [matAt_matApplyIdx _ _ _ _ hgi hgj]
    show matAt grads i j * (GetSlice outputs).getD (i * (grads.getD 0 []).length + j) 0 *
        (1 - (GetSlice outputs).getD (i * (grads.getD 0 []).length + j) 0) = _
    unfold GetSlice
    rw [flatten_getD_rect _ outputs i j hrect hoi hjc]
    ring

/-- Witness for C7 at input [[0]], cached outputs [[1/2]] and upstream
gradient [[1]] over the reals. -/
theorem C7_sigmoid_pass_and_back_witness :
    ((0 : Nat) < ([[(0 : ℝ)]] : Mat ℝ).length) ∧
      ((0 : Nat) < (([[(0 : ℝ)]] : Mat ℝ).getD 0 []).length) ∧
      ((0 : Nat) < ([[(1 : ℝ)]] : Mat ℝ).length) ∧
      ((0 : Nat) < (([[(1 : ℝ)]] : Mat ℝ).getD 0 []).length) ∧
      (∀ row ∈ ([[(1 / 2 : ℝ)]] : Mat ℝ),
        row.length = (([[(1 : ℝ)]] : Mat ℝ).getD 0 []).length) ∧
      (matAt (SigmoidLayer.Pass Real.exp [[(0 : ℝ)]]) 0 0 =
          1 / (1 + Real.exp (-(matAt [[(0 : ℝ)]] 0 0))) ∧
        (SigmoidLayer.Back [[(1 / 2 : ℝ)]] [[(1 : ℝ)]]).1 = ShiftType.nil ∧
        matAt (SigmoidLayer.Back [[(1 / 2 : ℝ)]] [[(1 : ℝ)]]).2 0 0 =
          matAt [[(1 : ℝ)]] 0 0 *
            (matAt [[(1 / 2 : ℝ)]] 0 0 * (1 - matAt [[(1 / 2 : ℝ)]] 0 0))) :=
  ⟨by decide, by decide, by decide, by decide, by decide,
    C7_sigmoid_pass_and_back [[(0 : ℝ)]] [[(1 / 2 : ℝ)]] [[(1 : ℝ)]] 0 0
      (by decide) (by decide) (by decide) (by decide) (by decide) (by decide) (by decide)⟩

/-- C5 counterexample: serialization does not round-trip for every layer
variant. A network containing an LSTM layer encodes its kind through the
default branch of LayerToIndex as -1, and FromBytes then gets nil from
IndexToLayer and fails (Go panics on the nil layer), so decoding the bytes
produced by encoding yields no network at all. -/
theorem C5_lstm_network_breaks_roundtrip :
    Perceptron.FromBytes (α := ℤ) (fun l _ => l) (fun l _ => l) (fun _ => 0)
        ⟨[], 0, 0, 0⟩
        (Perceptron.ToBytes (fun _ => [])
          ⟨[Layer.lstm ([], []) ([], []) ([], []) ([], [])], 8, 0, 1⟩) = none := by
  decide

/-- C5 (amended): for every network whose layers are all among the eight
indexed kinds and whose per-layer codecs satisfy the round-trip contract
of the spec (the layerRT check, covering the chained widths and int32
payload sizes), FromBytes after ToBytes yields a network with the same
input width and the same layer sequence, whose forward-pass output matches
the original on every input and every pass function. Networks containing
an LSTM layer are excluded: LayerToIndex maps LSTM to -1 and the blob
becomes undecodable. -/
theorem C5_tobytes_frombytes_roundtrip {α : Type} [CommRing α] [DecidableEq α]
    (ltb : Layer α → List Nat) (lfb : Layer α → List Nat → Layer α)
    (linit : Layer α → Int → Layer α) (nout : Layer α → Int) (net net0 : Perceptron α)
    (hn1 : -2147483648 ≤ net.numInputs) (hn2 : net.numInputs < 2147483648)
    (hrt : layerRT ltb lfb linit nout net.numInputs net.Layers = true) :
    ∃ net2 : Perceptron α,
      Perceptron.FromBytes lfb linit nout net0 (Perceptron.ToBytes ltb net) = some net2 ∧
        net2.numInputs = net.numInputs ∧ net2.Layers = net.Layers ∧
        ∀ (passFn : Layer α → Mat α → Mat α) (input : List α),
          net2.Evaluate passFn input = net.Evaluate passFn input := by
  have hndec := bytesToInt32_int32ToBytes net.numInputs hn1 hn2
  refine ⟨{ net0 with numInputs := net.numInputs, Layers := net.Layers }, ?_, rfl, rfl,
    fun passFn input => rfl⟩
  unfold Perceptron.ToBytes Perceptron.FromBytes
  simp only [ConstantsToBytes, List.map_cons, List.map_nil, List.flatten_cons,
    List.flatten_nil, List.append_nil, int32ToBytes, List.cons_append, List.nil_append]
  simp only [ConstantsFromBytes, hndec, List.getD_cons_zero]
  rw [fromBytesLoop_roundtrip ltb lfb linit nout net.Layers net.numInputs _ hrt (le_refl _)]
  rfl

/-- Witness for C5: a two-sigmoid-layer network over the integers with the
actual SigmoidLayer codec (empty payload, FromBytes a no-op, Initialize
recording the width, NumOutputs returning it). -/
theorem C5_tobytes_frombytes_roundtrip_witness :
    ((-2147483648 : Int) ≤ (2 : Int)) ∧ ((2 : Int) < 2147483648) ∧
      (layerRT (α := ℤ) (fun _ => []) (fun l _ => l)
          (fun l w => match l with | Layer.sigmoid _ => Layer.sigmoid w | x => x)
          (fun l => match l with | Layer.sigmoid n => n | _ => 0) 2
          [Layer.sigmoid 2, Layer.sigmoid 2] = true) ∧
      (∃ net2 : Perceptron ℤ,
        Perceptron.FromBytes (fun l _ => l)
            (fun l w => match l with | Layer.sigmoid _ => Layer.sigmoid w | x => x)
            (fun l => match l with | Layer.sigmoid n => n | _ => 0) ⟨[], 0, 0, 0⟩
            (Perceptron.ToBytes (fun _ => [])
              ⟨[Layer.sigmoid 2, Layer.sigmoid 2], 8, 0, 2⟩) = some net2 ∧
          net2.numInputs = (2 : Int) ∧ net2.Layers = [Layer.sigmoid 2, Layer.sigmoid 2] ∧
          ∀ (passFn : Layer ℤ → Mat ℤ → Mat ℤ) (input : List ℤ),
            net2.Evaluate passFn input =
              Perceptron.Evaluate passFn ⟨[Layer.sigmoid 2, Layer.sigmoid 2], 8, 0, 2⟩ input) :=
  ⟨by decide, by decide, by decide,
    C5_tobytes_frombytes_roundtrip (fun _ => []) (fun l _ => l)
      (fun l w => match l with | Layer.sigmoid _ => Layer.sigmoid w | x => x)
      (fun l => match l with | Layer.sigmoid n => n | _ => 0)
      ⟨[Layer.sigmoid 2, Layer.sigmoid 2], 8, 0, 2⟩ ⟨[], 0, 0, 0⟩
      (by decide) (by decide) (by decide)⟩

/-- C10: each time the sample index of Perceptron.Train wraps past the end
of the training dataset, the dataset slice of the caller is reshuffled in
place, so after the batches the dataset equals the composition of one
reshuffle per epoch boundary crossed (the number of draws divided by the
dataset length); the held-out testing dataset is returned with its order
untouched. -/
theorem C10_train_reshuffles_dataset_not_testing {D : Type}
    (shuffle : Nat → List D → List D) (dataset testingData : List D)
    (batchSize numBatches : Nat) (hL : 0 < dataset.length)
    (hpres : ∀ k l, (shuffle k l).length = l.length) :
    Perceptron.TrainDatasets shuffle dataset testingData batchSize numBatches =
      (applyShuffles shuffle (batchSize * numBatches / dataset.length) dataset,
        testingData) := by
  unfold Perceptron.TrainDatasets
  rw [trainStep_iterate shuffle hpres dataset hL (batchSize * numBatches)]

/-- Witness for C10: dataset [0, 1], testing set [5], one batch of two
draws with the reversal oracle: the dataset comes back reversed once and
the testing set is unchanged. -/
theorem C10_train_reshuffles_dataset_not_testing_witness :
    (0 < ([0, 1] : List ℕ).length) ∧
      (∀ (k : Nat) (l : List ℕ), ((fun (_ : Nat) (l2 : List ℕ) => l2.reverse) k l).length = l.length) ∧
      Perceptron.TrainDatasets (fun (_ : Nat) (l2 : List ℕ) => l2.reverse) [0, 1] [5] 2 1 =
        (applyShuffles (fun (_ : Nat) (l2 : List ℕ) => l2.reverse) (2 * 1 / ([0, 1] : List ℕ).length) [0, 1],
          [5]) :=
  ⟨by decide, fun _ l => List.length_reverse l,
    C10_train_reshuffles_dataset_not_testing (fun (_ : Nat) (l2 : List ℕ) => l2.reverse) [0, 1] [5] 2 1
      (by decide) (fun _ l => List.length_reverse l)⟩

end Backprop
